import Mathlib

/-!
Verification of the GuruShots auto-voter core (`src/fetch.js`).

The embedding models the exposure-accumulation voting loop of `submitVotes`,
the payload it submits, the boost gating and vote gating checks of
`fetchChallengesAndVote`, and the per-challenge orchestrator loop with its
error isolation.  Numbers (exposure factors, contribution ratios, epoch
seconds) are modelled as `Int`; the randomness source
`Math.floor(Math.random() * images.length)` is modelled as an explicit list
of drawn indices (a finite prefix of the random stream); network effects are
oracles passed as function arguments, with `Except` modelling a thrown
exception.
-/

namespace GuruVote

/-- A candidate image as consumed by `submitVotes`: an identifier and the
exposure contribution ratio (`randomImage.ratio` in the source). -/
structure Image where
  id : String
  ratio : Int
deriving DecidableEq, Repr

/-- The mutable state of the selection loop in `submitVotes`:
`exposure` is the running `exposure_factor`, `chosen` records the accepted
images in acceptance order (the source keeps the id set `uniqueImageIds`
and the serialized `votedImages` string; both are derived from `chosen`),
and `warned` records whether the "Not enough images to reach exposure
factor 100" warning was emitted. -/
structure SelState where
  exposure : Int
  chosen : List Image
  warned : Bool
deriving DecidableEq, Repr

/-- The selection loop of `submitVotes` (src/fetch.js lines 156-171).

```
while (exposure_factor < 100) {
    const randomImage = images[Math.floor(Math.random() * images.length)];
    if (uniqueImageIds.has(randomImage.id)) continue;
    uniqueImageIds.add(randomImage.id);
    votedImages += ...;
    exposure_factor += randomImage.ratio;
    if (uniqueImageIds.size === images.length) { console.warn(...); break; }
}
```

`ds` is the list of indices produced by the random source; `none` means the
draw list was exhausted (or an out-of-range index occurred, which the real
random source never produces) while the loop was still running, `some s`
means the loop exited and `s` is its final state. -/
def selectLoop (images : List Image) : List Nat → SelState → Option SelState
  | [], s => if s.exposure < 100 then none else some s
  | d :: ds, s =>
    if s.exposure < 100 then
      match images[d]? with
      | none => none
      | some img =>
        if img.id ∈ s.chosen.map Image.id then
          selectLoop images ds s
        else
          if (s.chosen ++ [img]).length = images.length then
            some ⟨s.exposure + img.ratio, s.chosen ++ [img], true⟩
          else
            selectLoop images ds ⟨s.exposure + img.ratio, s.chosen ++ [img], s.warned⟩
    else some s

/-- The relevant fields of the `voteImages` object passed to `submitVotes`:
the current exposure factor (`voting.exposure.exposure_factor`) and the
candidate pool (`images`). -/
structure VoteImagesData where
  exposure_factor : Int
  images : List Image
deriving DecidableEq, Repr

/-- The form-encoded body of the `submit_vote` request built by
`submitVotes`: challenge id, the chosen `image_ids[]` entries and the
`viewed_image_ids[]` entries (serialization to the URL-encoded string is
not modelled; the lists carry the same information in the same order). -/
structure SubmitPayload where
  c_id : String
  image_ids : List String
  viewed_image_ids : List String
deriving DecidableEq, Repr

/-- `submitVotes` (src/fetch.js lines 136-189) as a payload builder:
`none` when no request is issued (empty pool early-return, or the modelled
draw list ran out before the loop exited), `some payload` when the
`submit_vote` request is issued with that body. -/
def submitVotes (cid : String) (vi : VoteImagesData) (ds : List Nat) :
    Option SubmitPayload :=
  if vi.images.isEmpty then none
  else
    match selectLoop vi.images ds ⟨vi.exposure_factor, [], false⟩ with
    | none => none
    | some s => some ⟨cid, s.chosen.map Image.id, vi.images.map Image.id⟩

/-- The fields of a challenge consulted by `fetchChallengesAndVote`:
`boost_state` and `boost_timeout` model `challenge.member.boost.state` and
`challenge.member.boost.timeout` (`none` models an absent/undefined
timeout; JavaScript truthiness additionally treats `some 0` as absent),
and `exposure_factor` models
`challenge.member.ranking.exposure.exposure_factor`. -/
structure Challenge where
  id : String
  start_time : Int
  boost_state : String
  boost_timeout : Option Int
  exposure_factor : Int
deriving DecidableEq, Repr

/-- The boost gate of `fetchChallengesAndVote` (src/fetch.js lines 287-293):
`applyBoost` is attempted iff
`boost.state === 'AVAILABLE' && boost.timeout` (truthiness: present and
nonzero) and `timeUntilDeadline <= 600 && timeUntilDeadline > 0` where
`timeUntilDeadline = boost.timeout - now`. -/
def shouldBoost (ch : Challenge) (now : Int) : Bool :=
  match ch.boost_timeout with
  | none => false
  | some t =>
    ch.boost_state == "AVAILABLE" && t != 0 &&
      (decide (t - now ≤ 600) && decide (t - now > 0))

/-- The vote gate of `fetchChallengesAndVote` (src/fetch.js line 304):
`challenge.member.ranking.exposure.exposure_factor < 100 &&
challenge.start_time < now`. -/
def voteGate (ch : Challenge) (now : Int) : Bool :=
  decide (ch.exposure_factor < 100) && decide (ch.start_time < now)

/-- Observable actions of one orchestrator cycle. -/
inductive Event where
  | boostAttempt (cid : String)
  | boostError (cid : String)
  | fetchImages (cid : String)
  | noImages (cid : String)
  | votesSubmitted (cid : String) (payload : SubmitPayload)
  | noVote (cid : String)
  | voteError (cid : String)
deriving DecidableEq, Repr

/-- The voting section of the per-challenge loop body
(src/fetch.js lines 305-317), inside its `try`: call `getVoteImages`
(the `fetchOp` oracle; `Except.error` models a thrown exception, `.ok none`
models the `null` return for an empty/invalid image response), then
`submitVotes`.  The surrounding `catch` logs and swallows the error, which
is modelled by the `voteError` event. -/
def processVoting (fetchOp : Challenge → Except String (Option VoteImagesData))
    (draws : Challenge → List Nat) (ch : Challenge) : List Event :=
  Event.fetchImages ch.id ::
    match fetchOp ch with
    | Except.error _ => [Event.voteError ch.id]
    | Except.ok none => [Event.noImages ch.id]
    | Except.ok (some vi) =>
      match submitVotes ch.id vi (draws ch) with
      | some p => [Event.votesSubmitted ch.id p]
      | none => [Event.noVote ch.id]

/-- One iteration of the per-challenge loop of `fetchChallengesAndVote`
(src/fetch.js lines 284-318): the boost section (with its own try/catch,
modelled by the `boostOp` oracle and the `boostError` event), then the
gated voting section. -/
def handleChallenge (boostOp : Challenge → Except String Unit)
    (fetchOp : Challenge → Except String (Option VoteImagesData))
    (draws : Challenge → List Nat) (now : Int) (ch : Challenge) : List Event :=
  (if shouldBoost ch now then
    Event.boostAttempt ch.id ::
      (match boostOp ch with
       | Except.ok _ => []
       | Except.error _ => [Event.boostError ch.id])
   else []) ++
  (if voteGate ch now then processVoting fetchOp draws ch else [])

/-- The orchestrator loop of `fetchChallengesAndVote` over the fetched
challenge list (src/fetch.js lines 284-319). -/
def fetchChallengesAndVote (boostOp : Challenge → Except String Unit)
    (fetchOp : Challenge → Except String (Option VoteImagesData))
    (draws : Challenge → List Nat) (now : Int) : List Challenge → List Event
  | [] => []
  | ch :: rest =>
    handleChallenge boostOp fetchOp draws now ch ++
      fetchChallengesAndVote boostOp fetchOp draws now rest

/-- The three-image pool of the worked example in the spec. -/
def imgA : Image := ⟨"a", 40⟩

/-- Second image of the worked example. -/
def imgB : Image := ⟨"b", 30⟩

/-- Third image of the worked example. -/
def imgC : Image := ⟨"c", 50⟩

/-- The example pool `[{id:a, ratio:40},{id:b, ratio:30},{id:c, ratio:50}]`. -/
def poolABC : List Image := [imgA, imgB, imgC]

/-- A duplicate-free list that is contained in another list is no longer
than it. -/
theorem length_le_of_nodup_subset {α : Type} [DecidableEq α] {l₁ l₂ : List α}
    (h₁ : l₁.Nodup) (h₂ : ∀ a ∈ l₁, a ∈ l₂) : l₁.length ≤ l₂.length := by
  calc l₁.length = l₁.toFinset.card := (List.toFinset_card_of_nodup h₁).symm
    _ ≤ l₂.toFinset.card := Finset.card_le_card (fun a ha => by
        simp only [List.mem_toFinset] at ha ⊢
        exact h₂ a ha)
    _ ≤ l₂.length := List.toFinset_card_le l₂

/-- Exit shape of the selection loop: it only stops with the running
exposure at or above 100 or with the whole pool chosen. -/
theorem selectLoop_exit {images : List Image} :
    ∀ {ds : List Nat} {s s' : SelState}, selectLoop images ds s = some s' →
      100 ≤ s'.exposure ∨ s'.chosen.length = images.length := by
  intro ds
  induction ds with
  | nil =>
    intro s s' h
    by_cases hexp : s.exposure < 100
    · simp [selectLoop, hexp] at h
    · simp only [selectLoop, if_neg hexp, Option.some.injEq] at h
      subst h
      exact Or.inl (by omega)
  | cons d ds ih =>
    intro s s' h
    by_cases hexp : s.exposure < 100
    · simp only [selectLoop, if_pos hexp] at h
      rcases hI : images[d]? with _ | img
      · rw [hI] at h
        exact absurd h (by simp)
      · simp only [hI] at h
        by_cases hdup : img.id ∈ s.chosen.map Image.id
        · rw [if_pos hdup] at h
          exact ih h
        · rw [if_neg hdup] at h
          by_cases hlen : (s.chosen ++ [img]).length = images.length
          · rw [if_pos hlen, Option.some.injEq] at h
            subst h
            exact Or.inr hlen
          · rw [if_neg hlen] at h
            exact ih h
    · simp only [selectLoop, if_neg hexp, Option.some.injEq] at h
      subst h
      exact Or.inl (by omega)

/-- Exposure accounting: across the loop, the running exposure minus the
sum of the chosen ratios is constant. -/
theorem selectLoop_exposure_sum {images : List Image} :
    ∀ {ds : List Nat} {s s' : SelState}, selectLoop images ds s = some s' →
      s'.exposure - (s'.chosen.map Image.ratio).sum
        = s.exposure - (s.chosen.map Image.ratio).sum := by
  intro ds
  induction ds with
  | nil =>
    intro s s' h
    by_cases hexp : s.exposure < 100
    · simp [selectLoop, hexp] at h
    · simp only [selectLoop, if_neg hexp, Option.some.injEq] at h
      subst h
      rfl
  | cons d ds ih =>
    intro s s' h
    by_cases hexp : s.exposure < 100
    · simp only [selectLoop, if_pos hexp] at h
      rcases hI : images[d]? with _ | img
      · rw [hI] at h
        exact absurd h (by simp)
      · simp only [hI] at h
        by_cases hdup : img.id ∈ s.chosen.map Image.id
        · rw [if_pos hdup] at h
          exact ih h
        · rw [if_neg hdup] at h
          by_cases hlen : (s.chosen ++ [img]).length = images.length
          · rw [if_pos hlen, Option.some.injEq] at h
            subst h
            simp only [List.map_append, List.sum_append, List.map_cons,
              List.map_nil, List.sum_cons, List.sum_nil]
            omega
          · rw [if_neg hlen] at h
            have := ih h
            simp only [List.map_append, List.sum_append, List.map_cons,
              List.map_nil, List.sum_cons, List.sum_nil] at this
            omega
    · simp only [selectLoop, if_neg hexp, Option.some.injEq] at h
      subst h
      rfl

/-- Every image chosen by the loop was already chosen at entry or comes
from the pool. -/
theorem selectLoop_chosen_mem {images : List Image} :
    ∀ {ds : List Nat} {s s' : SelState}, selectLoop images ds s = some s' →
      ∀ x ∈ s'.chosen, x ∈ s.chosen ∨ x ∈ images := by
  intro ds
  induction ds with
  | nil =>
    intro s s' h
    by_cases hexp : s.exposure < 100
    · simp [selectLoop, hexp] at h
    · simp only [selectLoop, if_neg hexp, Option.some.injEq] at h
      subst h
      exact fun x hx => Or.inl hx
  | cons d ds ih =>
    intro s s' h
    by_cases hexp : s.exposure < 100
    · simp only [selectLoop, if_pos hexp] at h
      rcases hI : images[d]? with _ | img
      · rw [hI] at h
        exact absurd h (by simp)
      · simp only [hI] at h
        have himg : img ∈ images := List.getElem?_mem hI
        by_cases hdup : img.id ∈ s.chosen.map Image.id
        · rw [if_pos hdup] at h
          exact ih h
        · rw [if_neg hdup] at h
          by_cases hlen : (s.chosen ++ [img]).length = images.length
          · rw [if_pos hlen, Option.some.injEq] at h
            subst h
            intro x hx
            rcases List.mem_append.mp hx with hx | hx
            · exact Or.inl hx
            · simp only [List.mem_singleton] at hx
              subst hx
              exact Or.inr himg
          · rw [if_neg hlen] at h
            intro x hx
            rcases ih h x hx with hx' | hx'
            · rcases List.mem_append.mp hx' with hx'' | hx''
              · exact Or.inl hx''
              · simp only [List.mem_singleton] at hx''
                subst hx''
                exact Or.inr himg
            · exact Or.inr hx'
    · simp only [selectLoop, if_neg hexp, Option.some.injEq] at h
      subst h
      exact fun x hx => Or.inl hx

/-- The loop preserves duplicate-freeness of the chosen identifiers. -/
theorem selectLoop_nodup {images : List Image} :
    ∀ {ds : List Nat} {s s' : SelState},
      (s.chosen.map Image.id).Nodup → selectLoop images ds s = some s' →
      (s'.chosen.map Image.id).Nodup := by
  intro ds
  induction ds with
  | nil =>
    intro s s' hn h
    by_cases hexp : s.exposure < 100
    · simp [selectLoop, hexp] at h
    · simp only [selectLoop, if_neg hexp, Option.some.injEq] at h
      subst h
      exact hn
  | cons d ds ih =>
    intro s s' hn h
    by_cases hexp : s.exposure < 100
    · simp only [selectLoop, if_pos hexp] at h
      rcases hI : images[d]? with _ | img
      · rw [hI] at h
        exact absurd h (by simp)
      · simp only [hI] at h
        by_cases hdup : img.id ∈ s.chosen.map Image.id
        · rw [if_pos hdup] at h
          exact ih hn h
        · rw [if_neg hdup] at h
          have hn' : ((s.chosen ++ [img]).map Image.id).Nodup := by
            simp only [List.map_append, List.map_cons, List.map_nil]
            simp only [List.nodup_append, List.nodup_cons, List.not_mem_nil,
              not_false_iff, List.nodup_nil, true_and, and_true]
            constructor
            · exact hn
            · intro a ha hb
              simp only [List.mem_singleton] at hb
              subst hb
              exact hdup ha
          by_cases hlen : (s.chosen ++ [img]).length = images.length
          · rw [if_pos hlen, Option.some.injEq] at h
            subst h
            exact hn'
          · rw [if_neg hlen] at h
            exact ih hn' h
    · simp only [selectLoop, if_neg hexp, Option.some.injEq] at h
      subst h
      exact hn

/-- With nonnegative contribution ratios, the running exposure never
decreases across any number of loop iterations. -/
theorem selectLoop_exposure_mono {images : List Image}
    (hr : ∀ img ∈ images, 0 ≤ img.ratio) :
    ∀ {ds : List Nat} {s s' : SelState}, selectLoop images ds s = some s' →
      s.exposure ≤ s'.exposure := by
  intro ds
  induction ds with
  | nil =>
    intro s s' h
    by_cases hexp : s.exposure < 100
    · simp [selectLoop, hexp] at h
    · simp only [selectLoop, if_neg hexp, Option.some.injEq] at h
      subst h
      exact le_refl _
  | cons d ds ih =>
    intro s s' h
    by_cases hexp : s.exposure < 100
    · simp only [selectLoop, if_pos hexp] at h
      rcases hI : images[d]? with _ | img
      · rw [hI] at h
        exact absurd h (by simp)
      · simp only [hI] at h
        have himg : 0 ≤ img.ratio := hr img (List.getElem?_mem hI)
        by_cases hdup : img.id ∈ s.chosen.map Image.id
        · rw [if_pos hdup] at h
          exact ih h
        · rw [if_neg hdup] at h
          by_cases hlen : (s.chosen ++ [img]).length = images.length
          · rw [if_pos hlen, Option.some.injEq] at h
            subst h
            simp only []
            omega
          · rw [if_neg hlen] at h
            have := ih h
            simp only [] at this
            omega
    · simp only [selectLoop, if_neg hexp, Option.some.injEq] at h
      subst h
      exact le_refl _

/-- Appending a fresh element preserves duplicate-freeness. -/
theorem nodup_append_single {α : Type} [DecidableEq α] {l : List α} {a : α}
    (hn : l.Nodup) (ha : a ∉ l) : (l ++ [a]).Nodup := by
  simp only [List.nodup_append, List.nodup_cons, List.not_mem_nil,
    not_false_iff, List.nodup_nil, true_and, and_true]
  refine ⟨hn, ?_⟩
  intro x hx hmem
  simp only [List.mem_singleton] at hmem
  subst hmem
  exact ha hx

/-- The exhaustion warning: from an unwarned state whose selection has not
yet covered the pool, the loop exits warned exactly when its final
selection has covered the whole pool. -/
theorem selectLoop_warned_iff {images : List Image} :
    ∀ {ds : List Nat} {s s' : SelState},
      s.warned = false → s.chosen.length < images.length →
      (s.chosen.map Image.id).Nodup → (∀ x ∈ s.chosen, x ∈ images) →
      selectLoop images ds s = some s' →
      (s'.warned = true ↔ s'.chosen.length = images.length) := by
  intro ds
  induction ds with
  | nil =>
    intro s s' hw hlen hn hsub h
    by_cases hexp : s.exposure < 100
    · simp [selectLoop, hexp] at h
    · simp only [selectLoop, if_neg hexp, Option.some.injEq] at h
      subst h
      rw [hw]
      simp only [Bool.false_eq_true, false_iff]
      omega
  | cons d ds ih =>
    intro s s' hw hlen hn hsub h
    by_cases hexp : s.exposure < 100
    · simp only [selectLoop, if_pos hexp] at h
      rcases hI : images[d]? with _ | img
      · rw [hI] at h
        exact absurd h (by simp)
      · simp only [hI] at h
        have himg : img ∈ images := List.getElem?_mem hI
        by_cases hdup : img.id ∈ s.chosen.map Image.id
        · rw [if_pos hdup] at h
          exact ih hw hlen hn hsub h
        · rw [if_neg hdup] at h
          have hn' : ((s.chosen ++ [img]).map Image.id).Nodup := by
            rw [List.map_append]
            simp only [List.map_cons, List.map_nil]
            exact nodup_append_single hn hdup
          have hsub' : ∀ x ∈ s.chosen ++ [img], x ∈ images := by
            intro x hx
            rcases List.mem_append.mp hx with hx | hx
            · exact hsub x hx
            · simp only [List.mem_singleton] at hx
              subst hx
              exact himg
          by_cases hlen2 : (s.chosen ++ [img]).length = images.length
          · rw [if_pos hlen2, Option.some.injEq] at h
            subst h
            simpa using hlen2
          · rw [if_neg hlen2] at h
            have hle : (s.chosen ++ [img]).length ≤ images.length := by
              have h1 := length_le_of_nodup_subset hn' (fun a ha => by
                rcases List.mem_map.mp ha with ⟨x, hx, rfl⟩
                exact List.mem_map.mpr ⟨x, hsub' x hx, rfl⟩)
              simpa using h1
            exact ih (s := ⟨s.exposure + img.ratio, s.chosen ++ [img], s.warned⟩)
              hw (by show (s.chosen ++ [img]).length < images.length; omega)
              hn' hsub' h
    · simp only [selectLoop, if_neg hexp, Option.some.injEq] at h
      subst h
      rw [hw]
      simp only [Bool.false_eq_true, false_iff]
      omega

/-- Termination: with duplicate-free pool identifiers, any in-range draw
list that mentions every index whose image is not yet chosen drives the
loop to an exit. -/
theorem selectLoop_total {images : List Image}
    (hids : (images.map Image.id).Nodup) :
    ∀ (ds : List Nat) (s : SelState), (∀ d ∈ ds, d < images.length) →
      (∀ i, (hi : i < images.length) →
        i ∈ ds ∨ images[i].id ∈ s.chosen.map Image.id) →
      (s.chosen.map Image.id).Nodup → (∀ x ∈ s.chosen, x ∈ images) →
      s.chosen.length < images.length →
      ∃ s', selectLoop images ds s = some s' := by
  intro ds
  induction ds with
  | nil =>
    intro s hvalid hcov hn hsub hlen
    by_cases hexp : s.exposure < 100
    · exfalso
      have hsubids : ∀ a ∈ images.map Image.id, a ∈ s.chosen.map Image.id := by
        intro a ha
        rcases List.mem_map.mp ha with ⟨x, hx, rfl⟩
        rcases List.mem_iff_getElem.mp hx with ⟨i, hi, rfl⟩
        rcases hcov i hi with hc | hc
        · exact absurd hc (List.not_mem_nil i)
        · exact hc
      have hle := length_le_of_nodup_subset hids hsubids
      simp only [List.length_map] at hle
      omega
    · exact ⟨s, by simp [selectLoop, hexp]⟩
  | cons d ds ih =>
    intro s hvalid hcov hn hsub hlen
    by_cases hexp : s.exposure < 100
    · have hd : d < images.length := hvalid d (List.mem_cons_self d ds)
      have hI : images[d]? = some images[d] := List.getElem?_eq_getElem hd
      simp only [selectLoop, if_pos hexp, hI]
      have hvalid' : ∀ x ∈ ds, x < images.length :=
        fun x hx => hvalid x (List.mem_cons_of_mem d hx)
      by_cases hdup : images[d].id ∈ s.chosen.map Image.id
      · rw [if_pos hdup]
        refine ih s hvalid' ?_ hn hsub hlen
        intro i hi
        rcases hcov i hi with hc | hc
        · rcases List.mem_cons.mp hc with rfl | hc'
          · exact Or.inr hdup
          · exact Or.inl hc'
        · exact Or.inr hc
      · rw [if_neg hdup]
        have himg : images[d] ∈ images := List.getElem_mem hd
        have hn' : ((s.chosen ++ [images[d]]).map Image.id).Nodup := by
          rw [List.map_append]
          simp only [List.map_cons, List.map_nil]
          exact nodup_append_single hn hdup
        have hsub' : ∀ x ∈ s.chosen ++ [images[d]], x ∈ images := by
          intro x hx
          rcases List.mem_append.mp hx with hx | hx
          · exact hsub x hx
          · simp only [List.mem_singleton] at hx
            subst hx
            exact himg
        by_cases hlen2 : (s.chosen ++ [images[d]]).length = images.length
        · rw [if_pos hlen2]
          exact ⟨_, rfl⟩
        · rw [if_neg hlen2]
          have hle : (s.chosen ++ [images[d]]).length ≤ images.length := by
            have h1 := length_le_of_nodup_subset hn' (fun a ha => by
              rcases List.mem_map.mp ha with ⟨x, hx, rfl⟩
              exact List.mem_map.mpr ⟨x, hsub' x hx, rfl⟩)
            simpa using h1
          refine ih _ hvalid' ?_ hn' hsub'
            (by show (s.chosen ++ [images[d]]).length < images.length; omega)
          intro i hi
          rcases hcov i hi with hc | hc
          · rcases List.mem_cons.mp hc with rfl | hc'
            · refine Or.inr ?_
              rw [List.map_append]
              simp
            · exact Or.inl hc'
          · refine Or.inr ?_
            rw [List.map_append]
            exact List.mem_append_left _ hc
    · exact ⟨s, by simp [selectLoop, hexp]⟩

/-- Reachability invariant for the worked example: starting the loop on
`poolABC` at exposure 60, every state at an iteration boundary is the
start state, the state after drawing only `b`, or an exit state with
exposure at least 100 and one or two chosen images. -/
def exampleInv (s : SelState) : Prop :=
  s = ⟨60, [], false⟩ ∨ s = ⟨90, [imgB], false⟩ ∨
    (100 ≤ s.exposure ∧ (s.chosen.length = 1 ∨ s.chosen.length = 2))

/-- Every exiting run of the example pool from exposure 60 ends at
exposure at least 100 having chosen one or two images. -/
theorem selectLoop_poolABC_aux :
    ∀ (ds : List Nat) (s s' : SelState), exampleInv s →
      selectLoop poolABC ds s = some s' →
      100 ≤ s'.exposure ∧ (s'.chosen.length = 1 ∨ s'.chosen.length = 2) := by
  intro ds
  induction ds with
  | nil =>
    intro s s' hinv h
    by_cases hexp : s.exposure < 100
    · simp [selectLoop, hexp] at h
    · simp only [selectLoop, if_neg hexp, Option.some.injEq] at h
      subst h
      rcases hinv with rfl | rfl | hq
      · exact absurd (by decide) hexp
      · exact absurd (by decide) hexp
      · exact hq
  | cons d ds ih =>
    intro s s' hinv h
    rcases hinv with rfl | rfl | hq
    · rcases Nat.lt_or_ge d 3 with hd | hd
      · interval_cases d
        · simp only [selectLoop] at h
          norm_num [poolABC, imgA, imgB, imgC] at h
          exact ih _ s' (by unfold exampleInv; decide) h
        · simp only [selectLoop] at h
          norm_num [poolABC, imgA, imgB, imgC] at h
          exact ih _ s' (by unfold exampleInv; decide) h
        · simp only [selectLoop] at h
          norm_num [poolABC, imgA, imgB, imgC] at h
          exact ih _ s' (by unfold exampleInv; decide) h
      · have hI : poolABC[d]? = none := by
          apply List.getElem?_eq_none
          simp only [poolABC, List.length_cons, List.length_nil]
          omega
        simp [selectLoop, hI] at h
    · rcases Nat.lt_or_ge d 3 with hd | hd
      · interval_cases d
        · simp only [selectLoop] at h
          norm_num [poolABC, imgA, imgB, imgC] at h
          exact ih _ s' (by unfold exampleInv; decide) h
        · simp only [selectLoop] at h
          norm_num [poolABC, imgA, imgB, imgC] at h
          exact ih _ s' (by unfold exampleInv; decide) h
        · simp only [selectLoop] at h
          norm_num [poolABC, imgA, imgB, imgC] at h
          exact ih _ s' (by unfold exampleInv; decide) h
      · have hI : poolABC[d]? = none := by
          apply List.getElem?_eq_none
          simp only [poolABC, List.length_cons, List.length_nil]
          omega
        simp [selectLoop, hI] at h
    · obtain ⟨h100, hlen⟩ := hq
      simp only [selectLoop, if_neg (by omega : ¬s.exposure < 100),
        Option.some.injEq] at h
      subst h
      exact ⟨h100, hlen⟩

/-- When the entry exposure already meets the target, the loop exits at
once with its state unchanged, whatever the draw list. -/
theorem selectLoop_done (images : List Image) (ds : List Nat) (s : SelState)
    (h : ¬s.exposure < 100) : selectLoop images ds s = some s := by
  cases ds with
  | nil => simp [selectLoop, h]
  | cons d ds => simp [selectLoop, h]

/-- C1: for every non-empty pool, every starting exposure in [0,100) and
every exiting run of the vote-selection loop of `submitVotes`, the
starting exposure plus the sum of the chosen images' ratios reaches 100
or the number of chosen images equals the pool size; in particular every
exiting run on the example pool `poolABC` from exposure 60 totals at
least 100 and chooses one or two images. -/
theorem submitVotes_target_or_exhaustion :
    (∀ (images : List Image) (ds : List Nat) (start : Int) (s : SelState),
      images ≠ [] → 0 ≤ start → start < 100 →
      selectLoop images ds ⟨start, [], false⟩ = some s →
      100 ≤ start + (s.chosen.map Image.ratio).sum ∨
        s.chosen.length = images.length) ∧
    (∀ (ds : List Nat) (s : SelState),
      selectLoop poolABC ds ⟨60, [], false⟩ = some s →
      100 ≤ (60 : Int) + (s.chosen.map Image.ratio).sum ∧
        (s.chosen.length = 1 ∨ s.chosen.length = 2)) := by
  constructor
  · intro images ds start s _ _ _ h
    rcases selectLoop_exit h with h100 | hlen
    · left
      have hsum := selectLoop_exposure_sum h
      simp only [List.map_nil, List.sum_nil] at hsum
      omega
    · right
      exact hlen
  · intro ds s h
    have hq := selectLoop_poolABC_aux ds _ s (Or.inl rfl) h
    have hsum := selectLoop_exposure_sum h
    simp only [List.map_nil, List.sum_nil] at hsum
    exact ⟨by omega, hq.2⟩

/-- Witness: the run of C1's statement on `poolABC` with draw list `[0]`
from exposure 60. -/
theorem submitVotes_target_or_exhaustion_witness :
    (100 ≤ (60 : Int) + (([imgA] : List Image).map Image.ratio).sum ∨
      ([imgA] : List Image).length = poolABC.length) ∧
    (100 ≤ (60 : Int) + (([imgA] : List Image).map Image.ratio).sum ∧
      (([imgA] : List Image).length = 1 ∨ ([imgA] : List Image).length = 2)) :=
  ⟨submitVotes_target_or_exhaustion.1 poolABC [0] 60 ⟨100, [imgA], false⟩
      (by decide) (by decide) (by decide) (by decide),
    submitVotes_target_or_exhaustion.2 [0] ⟨100, [imgA], false⟩ (by decide)⟩

/-- C3: the chosen identifiers returned by the selection loop of
`submitVotes` never contain the same identifier twice. -/
theorem selection_no_duplicates (images : List Image) (ds : List Nat)
    (start : Int) (s : SelState)
    (h : selectLoop images ds ⟨start, [], false⟩ = some s) :
    (s.chosen.map Image.id).Nodup :=
  selectLoop_nodup (by simp) h

/-- Witness: duplicate-freeness of the concrete run on `poolABC`. -/
theorem selection_no_duplicates_witness :
    (([imgA] : List Image).map Image.id).Nodup :=
  selection_no_duplicates poolABC [0] 60 ⟨100, [imgA], false⟩ (by decide)

/-- C4: whenever `submitVotes` issues a request, the viewed identifier
list of the payload is exactly the identifiers of the entire input pool,
regardless of which images were chosen. -/
theorem viewed_completeness (cid : String) (vi : VoteImagesData)
    (ds : List Nat) (p : SubmitPayload)
    (h : submitVotes cid vi ds = some p) :
    p.viewed_image_ids = vi.images.map Image.id := by
  unfold submitVotes at h
  by_cases he : vi.images.isEmpty
  · rw [if_pos he] at h
    exact Option.noConfusion h
  · rw [if_neg he] at h
    rcases hsel : selectLoop vi.images ds ⟨vi.exposure_factor, [], false⟩
      with _ | s
    · simp only [hsel] at h
      exact Option.noConfusion h
    · simp only [hsel, Option.some.injEq] at h
      subst h
      rfl

/-- Witness: viewed completeness on a concrete submission. -/
theorem viewed_completeness_witness :
    (SubmitPayload.mk "c1" ["a"] ["a", "b", "c"]).viewed_image_ids
      = poolABC.map Image.id :=
  viewed_completeness "c1" ⟨60, poolABC⟩ [0]
    (SubmitPayload.mk "c1" ["a"] ["a", "b", "c"]) (by decide)

/-- C9: with nonnegative contribution ratios (the data model's ratios are
exposure points granted), the running exposure factor is monotonically
non-decreasing within a voting pass: from any iteration-boundary state,
the exit state's exposure is at least as large; applied to the state at
the start of any single iteration this says each iteration never lowers
it. -/
theorem exposure_monotone (images : List Image) (ds : List Nat)
    (s s' : SelState) (hr : ∀ img ∈ images, 0 ≤ img.ratio)
    (h : selectLoop images ds s = some s') :
    s.exposure ≤ s'.exposure :=
  selectLoop_exposure_mono hr h

/-- Witness: monotonicity on the concrete run on `poolABC`. -/
theorem exposure_monotone_witness : (60 : Int) ≤ 100 :=
  exposure_monotone poolABC [0] ⟨60, [], false⟩ ⟨100, [imgA], false⟩
    (by decide) (by decide)

/-- C10: with a non-empty pool and an exposure factor already at or above
100, the selection loop chooses nothing, yet `submitVotes` still issues a
request whose payload has no chosen image identifiers but carries the
full pool as viewed identifiers. -/
theorem submit_when_target_reached (cid : String) (vi : VoteImagesData)
    (ds : List Nat) (hne : vi.images ≠ []) (hexp : 100 ≤ vi.exposure_factor) :
    submitVotes cid vi ds = some ⟨cid, [], vi.images.map Image.id⟩ := by
  have hsel : selectLoop vi.images ds ⟨vi.exposure_factor, [], false⟩ =
      some ⟨vi.exposure_factor, [], false⟩ :=
    selectLoop_done _ _ _ (by
      have : ¬vi.exposure_factor < 100 := by omega
      exact this)
  unfold submitVotes
  rw [if_neg (by simpa [List.isEmpty_iff] using hne)]
  simp only [hsel]
  rfl

/-- Witness: a pool already at exposure 120 still submits, with empty
chosen identifiers and the full pool viewed. -/
theorem submit_when_target_reached_witness :
    submitVotes "c1" ⟨120, poolABC⟩ [] =
      some ⟨"c1", [], poolABC.map Image.id⟩ :=
  submit_when_target_reached "c1" ⟨120, poolABC⟩ [] (by decide) (by decide)

/-- C2: for every non-empty pool with duplicate-free identifiers and
every starting exposure in [0,100), the selection loop exits on any
in-range draw list that covers every pool index (the uniform random draw
stream of the source produces such a prefix with probability one), and
the number of accepted draws is at most the pool size. -/
theorem selectLoop_terminates_bounded (images : List Image) (ds : List Nat)
    (start : Int) (hne : images ≠ [])
    (hids : (images.map Image.id).Nodup)
    (h0 : 0 ≤ start) (h1 : start < 100)
    (hvalid : ∀ d ∈ ds, d < images.length)
    (hcov : ∀ i, i < images.length → i ∈ ds) :
    ∃ s, selectLoop images ds ⟨start, [], false⟩ = some s ∧
      s.chosen.length ≤ images.length := by
  have hlen0 : (0 : Nat) < images.length := List.length_pos.mpr hne
  obtain ⟨s, hs⟩ := selectLoop_total hids ds ⟨start, [], false⟩ hvalid
    (fun i hi => Or.inl (hcov i hi)) (by simp) (by simp) (by simpa using hlen0)
  refine ⟨s, hs, ?_⟩
  have hnd := selectLoop_nodup (by simp) hs
  have hmem := selectLoop_chosen_mem hs
  have hle := length_le_of_nodup_subset hnd (fun a ha => by
    rcases List.mem_map.mp ha with ⟨x, hx, rfl⟩
    rcases hmem x hx with hx' | hx'
    · exact absurd hx' (List.not_mem_nil x)
    · exact List.mem_map.mpr ⟨x, hx', rfl⟩)
  simpa using hle

/-- Witness: termination of the example pool under the covering draw list
`[0, 1, 2]`. -/
theorem selectLoop_terminates_bounded_witness :
    ∃ s, selectLoop poolABC [0, 1, 2] ⟨60, [], false⟩ = some s ∧
      s.chosen.length ≤ poolABC.length :=
  selectLoop_terminates_bounded poolABC [0, 1, 2] 60 (by decide) (by decide)
    (by decide) (by decide) (by decide)
    (by
      intro i hi
      have hi3 : i < 3 := by simpa [poolABC] using hi
      interval_cases i <;> decide)

/-- The one-image pool used on the warning claim. -/
def poolSingle : List Image := [⟨"a", 60⟩]

/-- C7 counterexample: on the pool `[{id:a, ratio:60}]` from exposure 50
the run accepts the only image, the accumulated total becomes 110 ≥ 100,
and the "not enough images" warning still fires — so the warning is not
reported only when the pool is exhausted with the total below 100. -/
theorem warning_counterexample :
    selectLoop poolSingle [0] ⟨50, [], false⟩ =
      some ⟨110, [⟨"a", 60⟩], true⟩ ∧ (100 : Int) ≤ 110 :=
  ⟨by decide, by decide⟩

/-- C7 amended: the "insufficient candidates" warning is reported exactly
when the selection has consumed the whole pool — also when the final
acceptance pushed the total to 100 or beyond — and the selection, partial
or not, is still submitted rather than treated as an error. -/
theorem warning_iff_exhausted (cid : String) (images : List Image)
    (ds : List Nat) (start : Int) (s : SelState) (hne : images ≠ [])
    (h : selectLoop images ds ⟨start, [], false⟩ = some s) :
    (s.warned = true ↔ s.chosen.length = images.length) ∧
      submitVotes cid ⟨start, images⟩ ds =
        some ⟨cid, s.chosen.map Image.id, images.map Image.id⟩ := by
  have hlen0 : (0 : Nat) < images.length := List.length_pos.mpr hne
  refine ⟨selectLoop_warned_iff rfl (by simpa using hlen0) (by simp)
    (by simp) h, ?_⟩
  unfold submitVotes
  rw [if_neg (by simpa [List.isEmpty_iff] using hne)]
  simp only [h]

/-- Witness: the exhausted one-image pool both warns and still submits. -/
theorem warning_iff_exhausted_witness :
    (((true : Bool) = true ↔
        ([(⟨"a", 60⟩ : Image)] : List Image).length = poolSingle.length) ∧
      submitVotes "c1" ⟨50, poolSingle⟩ [0] =
        some ⟨"c1", [(⟨"a", 60⟩ : Image)].map Image.id,
          poolSingle.map Image.id⟩) :=
  warning_iff_exhausted "c1" poolSingle [0] 50 ⟨110, [⟨"a", 60⟩], true⟩
    (by decide) (by decide)

/-- The boost gate as a proposition: state AVAILABLE, a deadline present,
and the deadline at most 600 seconds away but not yet passed. -/
theorem shouldBoost_iff (ch : Challenge) (now : Int) (hnow : 0 ≤ now) :
    shouldBoost ch now = true ↔
      (ch.boost_state = "AVAILABLE" ∧
        ∃ t, ch.boost_timeout = some t ∧ 0 < t - now ∧ t - now ≤ 600) := by
  unfold shouldBoost
  rcases htt : ch.boost_timeout with _ | t
  · simp [htt]
  · simp only [htt, Bool.and_eq_true, beq_iff_eq, bne_iff_ne,
      decide_eq_true_eq, Option.some.injEq]
    constructor
    · rintro ⟨⟨hst, ht0⟩, h1, h2⟩
      exact ⟨hst, t, rfl, by omega, h1⟩
    · rintro ⟨hst, t', ht', h1, h2⟩
      subst ht'
      exact ⟨⟨hst, by omega⟩, h2, by omega⟩

/-- Boost oracle that always succeeds, for concrete runs. -/
def boostOpOkW : Challenge → Except String Unit := fun _ => Except.ok ()

/-- Fetch oracle returning no images, for concrete runs. -/
def fetchOpNone : Challenge → Except String (Option VoteImagesData) :=
  fun _ => Except.ok none

/-- Empty draw oracle, for concrete runs. -/
def drawsNone : Challenge → List Nat := fun _ => []

/-- C5: with a nonnegative current time (epoch seconds are nonnegative),
the orchestrator attempts a boost for a challenge exactly when the boost
state is AVAILABLE, a deadline is present, and the deadline is no more
than 600 seconds away but not yet passed; it attempts none otherwise. -/
theorem boost_gating (boostOp : Challenge → Except String Unit)
    (fetchOp : Challenge → Except String (Option VoteImagesData))
    (draws : Challenge → List Nat) (ch : Challenge) (now : Int)
    (hnow : 0 ≤ now) :
    Event.boostAttempt ch.id ∈ handleChallenge boostOp fetchOp draws now ch ↔
      (ch.boost_state = "AVAILABLE" ∧
        ∃ t, ch.boost_timeout = some t ∧ 0 < t - now ∧ t - now ≤ 600) := by
  rw [← shouldBoost_iff ch now hnow]
  unfold handleChallenge
  rw [List.mem_append]
  have hnv : Event.boostAttempt ch.id ∉
      (if voteGate ch now then processVoting fetchOp draws ch else []) := by
    by_cases hg : voteGate ch now = true
    · rw [if_pos hg]
      unfold processVoting
      rcases fetchOp ch with e | vo
      · simp
      · rcases vo with _ | vi
        · simp
        · simp only []
          rcases submitVotes ch.id vi (draws ch) with _ | p <;> simp
    · rw [if_neg hg]
      simp
  constructor
  · rintro (hmem | hmem)
    · by_cases hb : shouldBoost ch now = true
      · exact hb
      · rw [if_neg hb] at hmem
        exact absurd hmem (List.not_mem_nil _)
    · exact absurd hmem hnv
  · intro hb
    left
    rw [if_pos hb]
    exact List.mem_cons_self _ _

/-- Witness: a boost is attempted for an AVAILABLE boost expiring in 300
seconds. -/
theorem boost_gating_witness :
    Event.boostAttempt "w" ∈
        handleChallenge boostOpOkW fetchOpNone drawsNone 1000
          ⟨"w", 2000, "AVAILABLE", some 1300, 120⟩ ↔
      ((⟨"w", 2000, "AVAILABLE", some 1300, 120⟩ : Challenge).boost_state
          = "AVAILABLE" ∧
        ∃ t, (⟨"w", 2000, "AVAILABLE", some 1300, 120⟩ :
            Challenge).boost_timeout = some t ∧
          0 < t - 1000 ∧ t - 1000 ≤ 600) :=
  boost_gating boostOpOkW fetchOpNone drawsNone
    ⟨"w", 2000, "AVAILABLE", some 1300, 120⟩ 1000 (by decide)

/-- A challenge whose start time equals the current time with exposure
below 100, at the boundary of the vote gate. -/
def chBoundary : Challenge := ⟨"x", 5, "USED", none, 50⟩

/-- C6 counterexample: at `now = 5` the challenge `chBoundary` has
exposure 50 < 100 and start time 5 ≤ 5, yet the orchestrator performs no
vote-image fetch: the gate `challenge.start_time < now` is strict, so the
claimed "start time ≤ now" gating does not hold. -/
theorem vote_gate_counterexample :
    chBoundary.exposure_factor < 100 ∧ chBoundary.start_time ≤ 5 ∧
      Event.fetchImages chBoundary.id ∉
        handleChallenge boostOpOkW fetchOpNone drawsNone 5 chBoundary :=
  ⟨by decide, by decide, by decide⟩

/-- C6 amended: the orchestrator fetches the candidate pool and runs the
voting step exactly when the exposure factor is below 100 AND the start
time is strictly less than the current time. -/
theorem vote_gate_strict (boostOp : Challenge → Except String Unit)
    (fetchOp : Challenge → Except String (Option VoteImagesData))
    (draws : Challenge → List Nat) (ch : Challenge) (now : Int) :
    Event.fetchImages ch.id ∈ handleChallenge boostOp fetchOp draws now ch ↔
      (ch.exposure_factor < 100 ∧ ch.start_time < now) := by
  unfold handleChallenge
  rw [List.mem_append]
  have hnb : Event.fetchImages ch.id ∉
      (if shouldBoost ch now then
        Event.boostAttempt ch.id ::
          (match boostOp ch with
           | Except.ok _ => []
           | Except.error _ => [Event.boostError ch.id])
       else []) := by
    by_cases hb : shouldBoost ch now = true
    · rw [if_pos hb]
      rcases boostOp ch with e | u <;> simp
    · rw [if_neg hb]
      simp
  constructor
  · rintro (hmem | hmem)
    · exact absurd hmem hnb
    · by_cases hg : voteGate ch now = true
      · unfold voteGate at hg
        simp only [Bool.and_eq_true, decide_eq_true_eq] at hg
        exact hg
      · rw [if_neg hg] at hmem
        exact absurd hmem (List.not_mem_nil _)
  · intro hcond
    right
    have hg : voteGate ch now = true := by
      unfold voteGate
      simp only [Bool.and_eq_true, decide_eq_true_eq]
      exact hcond
    rw [if_pos hg]
    unfold processVoting
    exact List.mem_cons_self _ _

/-- A gate-open challenge used in the three-challenge isolation scenario. -/
def chN (i : String) : Challenge := ⟨i, 0, "USED", none, 50⟩

/-- Fetch oracle that throws precisely on challenge "2" and otherwise
returns a one-image pool at exposure 0. -/
def fetchOpFail2 : Challenge → Except String (Option VoteImagesData) :=
  fun ch =>
    if ch.id == "2" then Except.error "network failure"
    else Except.ok (some ⟨0, [⟨"p", 150⟩]⟩)

/-- Draw oracle returning index 0, for concrete runs. -/
def drawsZero : Challenge → List Nat := fun _ => [0]

/-- C8: a failure while processing one challenge is caught and logged and
the loop continues: the events of a cycle split challenge by challenge,
each independent of the others' errors; in particular, with three
challenges whose vote-image fetch throws on the second, the first and
third are still fully processed (fetched and submitted) around the logged
error of the second. -/
theorem failure_isolation :
    (∀ (boostOp : Challenge → Except String Unit)
        (fetchOp : Challenge → Except String (Option VoteImagesData))
        (draws : Challenge → List Nat) (now : Int)
        (pre : List Challenge) (ch : Challenge) (post : List Challenge),
      fetchChallengesAndVote boostOp fetchOp draws now (pre ++ ch :: post) =
        fetchChallengesAndVote boostOp fetchOp draws now pre ++
          handleChallenge boostOp fetchOp draws now ch ++
          fetchChallengesAndVote boostOp fetchOp draws now post) ∧
    fetchChallengesAndVote boostOpOkW fetchOpFail2 drawsZero 5
        [chN "1", chN "2", chN "3"] =
      [Event.fetchImages "1",
        Event.votesSubmitted "1" ⟨"1", ["p"], ["p"]⟩,
        Event.fetchImages "2", Event.voteError "2",
        Event.fetchImages "3",
        Event.votesSubmitted "3" ⟨"3", ["p"], ["p"]⟩] := by
  constructor
  · intro boostOp fetchOp draws now pre ch post
    induction pre with
    | nil => simp [fetchChallengesAndVote]
    | cons c cs ih => simp [fetchChallengesAndVote, ih, List.append_assoc]
  · decide

end GuruVote
